import Mathlib

/-!
Shallow embedding of the `pow` terminal text editor (package `editor`,
file `src/unnamed/part_006`).  Lines are lists of characters (Go strings
at rune granularity), Go `int` is `Int`, and fallible operations (Go
panics: out-of-range indexing and slicing) are modelled with `Option`,
where `none` means the Go program panics.  External collaborators
(screen size, clipboard, file system, write results) are passed in as an
explicit `Env` record.
-/

namespace Pow

/-- A text line: Go string as a list of runes. -/
abbrev Line := List Char

/-- `SearchResult` from the source (fields `Line`, `Col`, `Len`). -/
structure SearchResult where
  line : Nat
  col : Nat
  len : Nat
deriving DecidableEq, Repr

/-- The mutable fields of the `Editor` struct that the core logic touches.
`message` models the text shown by `showMessage` (a message dialog),
`none` when no dialog is up. -/
structure EState where
  filePath : Line
  content : List Line
  cursorX : Int
  cursorY : Int
  scrollY : Int
  modified : Bool
  searchQuery : Line
  searchResults : List SearchResult
  currentSearchIdx : Int
  keyCounter : Int
  message : Option Line
deriving DecidableEq, Repr

/-- Result of the external `os.WriteFile` call. -/
inductive WriteRes
  | ok
  | ioErr
deriving DecidableEq, Repr

/-- Keys fed to the filename prompt (`promptForFilename`). -/
inductive PKey
  | enter
  | escape
  | backspace
  | ch (c : Char)
deriving DecidableEq, Repr

/-- Keys handled by `handleKeyEvent`.  `other` stands for any key the
switch passes through unchanged. -/
inductive Key
  | up
  | down
  | left
  | right
  | pgUp
  | pgDn
  | home
  | endK
  | enter
  | backspace
  | delete
  | tab
  | rune (c : Char)
  | ctrlS
  | ctrlV
  | other
deriving DecidableEq, Repr

/-- The environment the handlers read: terminal height, the outcome the
OS would give a write, the keystrokes available to the filename prompt,
the dialog input-field capacity, the clipboard content (`none` models a
missing helper / failed command), and whether `filePath` names an
existing file on disk (`fileExists`). -/
structure Env where
  height : Int
  writeRes : WriteRes
  script : List PKey
  cap : Nat
  clip : Option Line
  onDisk : Bool

/-- The default name given to an unnamed buffer. -/
def untitledName : Line := "untitled.txt".toList

/-- Marker for the `showMessage` text on a failed save (the Go code
formats the OS error into the message; the text itself is opaque here). -/
def saveErrMsg : Line := "Error saving file".toList

/-- Go indexing `xs[i]` on a slice/string: panics (`none`) when `i` is
out of range. -/
def goIndex {α : Type} (xs : List α) (i : Int) : Option α :=
  if 0 ≤ i then xs[i.toNat]? else none

/-- Go slicing `s[:i]`: defined for `0 ≤ i ≤ len s`, otherwise panics. -/
def goSliceTo {α : Type} (s : List α) (i : Int) : Option (List α) :=
  if 0 ≤ i ∧ i ≤ (s.length : Int) then some (s.take i.toNat) else none

/-- Go slicing `s[i:]`: defined for `0 ≤ i ≤ len s`, otherwise panics. -/
def goSliceFrom {α : Type} (s : List α) (i : Int) : Option (List α) :=
  if 0 ≤ i ∧ i ≤ (s.length : Int) then some (s.drop i.toNat) else none

/-- Go `copy(dst[i:], src)`: overwrites `dst` from position `i` with as
many elements of `src` as fit. -/
def goCopy {α : Type} (dst : List α) (i : Nat) (src : List α) : List α :=
  let k := min (dst.length - i) src.length
  dst.take i ++ src.take k ++ dst.drop (i + k)

/-- The `moveAmount` computation at the top of the `KeyUp` / `KeyDown`
cases: `1`, then raised to `3`, `5`, `10` as `keyCounter` passes `5`,
`10`, `15`. -/
def moveAmount (counter : Int) : Int :=
  if counter > 15 then 10
  else if counter > 10 then 5
  else if counter > 5 then 3
  else 1

/-- Whether a key is one of the four cursor-navigation keys the `Run`
loop skips redraws for. -/
def isArrowKey : Key → Bool
  | .up => true
  | .down => true
  | .left => true
  | .right => true
  | _ => false

/-- The redraw / `keyCounter` logic of the `Run` event loop (lines
188–217): arrow keys skip the redraw and bump the counter, a space rune
forces a redraw and zeroes the counter, reaching 20 forces a redraw and
zeroes the counter; every other key redraws and leaves the counter
alone.  Returns `(new counter, shouldDraw)`. -/
def updateCounter (k : Key) (counter : Int) : Int × Bool :=
  let shouldDraw := true
  let shouldDraw := if isArrowKey k then false else shouldDraw
  let p := if k = Key.rune ' ' then ((0 : Int), true) else (counter, shouldDraw)
  if !p.2 then
    let c := p.1 + 1
    if c ≥ 20 then (0, true) else (c, false)
  else p

/-- `ensureVisibleCursor`: clamps a cursor that ran past the virtual
line, then scrolls so the cursor row lies inside the
`height - 1`-row content window. -/
def ensureVisibleCursor (env : Env) (s : EState) : EState :=
  let contentHeight := env.height - 1
  let maxY : Int := s.content.length
  let s1 := if s.cursorY > maxY then { s with cursorY := maxY, cursorX := 0 } else s
  let s2 := if s1.cursorY < s1.scrollY then { s1 with scrollY := s1.cursorY } else s1
  if s2.cursorY ≥ s2.scrollY + contentHeight then
    { s2 with scrollY := s2.cursorY - contentHeight + 1 }
  else s2

/-- The `KeyUp` case of `handleKeyEvent`. -/
def handleUp (env : Env) (s : EState) : Option EState := do
  let m := moveAmount s.keyCounter
  let newY := if s.cursorY - m < 0 then 0 else s.cursorY - m
  let line ← goIndex s.content newY
  let newX := if s.cursorX > (line.length : Int) then (line.length : Int) else s.cursorX
  some (ensureVisibleCursor env { s with cursorY := newY, cursorX := newX })

/-- The clamp `newY := cursorY + moveAmount; if newY > maxY { newY = maxY }`
of the `KeyDown` case (`maxY = len(content)`, one past the last line). -/
def downNewY (s : EState) : Int :=
  if s.cursorY + moveAmount s.keyCounter > (s.content.length : Int) then
    (s.content.length : Int)
  else s.cursorY + moveAmount s.keyCounter

/-- The `KeyDown` case of `handleKeyEvent`; `cursorY` may land on the
virtual line (`= len content`), in which case `cursorX` is forced to 0. -/
def handleDown (env : Env) (s : EState) : Option EState :=
  if downNewY s < (s.content.length : Int) then do
    let line ← goIndex s.content (downNewY s)
    let newX := if s.cursorX > (line.length : Int) then (line.length : Int) else s.cursorX
    some (ensureVisibleCursor env { s with cursorY := downNewY s, cursorX := newX })
  else if downNewY s = (s.content.length : Int) then
    some (ensureVisibleCursor env { s with cursorY := downNewY s, cursorX := 0 })
  else
    some (ensureVisibleCursor env { s with cursorY := downNewY s })

/-- The `KeyLeft` case. -/
def handleLeft (s : EState) : Option EState :=
  if s.cursorX > 0 then some { s with cursorX := s.cursorX - 1 }
  else if s.cursorY > 0 then do
    let line ← goIndex s.content (s.cursorY - 1)
    some { s with cursorY := s.cursorY - 1, cursorX := (line.length : Int) }
  else some s

/-- The `KeyRight` case; from the end of a real line the cursor steps to
the start of the next row, which may be the virtual line. -/
def handleRight (s : EState) : Option EState :=
  if s.cursorY < (s.content.length : Int) then do
    let line ← goIndex s.content s.cursorY
    if s.cursorX < (line.length : Int) then some { s with cursorX := s.cursorX + 1 }
    else some { s with cursorY := s.cursorY + 1, cursorX := 0 }
  else some s

/-- The clamp of the `KeyPgUp` case: up a page (`height - 1` rows),
floored at the first line. -/
def pgUpNewY (env : Env) (s : EState) : Int :=
  if s.cursorY - (env.height - 1) < 0 then 0 else s.cursorY - (env.height - 1)

/-- The `KeyPgUp` case. -/
def handlePgUp (env : Env) (s : EState) : Option EState :=
  if s.cursorY > 0 then do
    let line ← goIndex s.content (pgUpNewY env s)
    let newX := if s.cursorX > (line.length : Int) then (line.length : Int) else s.cursorX
    some { s with cursorY := pgUpNewY env s, cursorX := newX }
  else some s

/-- The clamp of the `KeyPgDn` case: down a page (`height - 1` rows),
capped at the last real line (paging never reaches the virtual line). -/
def pgDnNewY (env : Env) (s : EState) : Int :=
  if s.cursorY + (env.height - 1) ≥ (s.content.length : Int) then
    (s.content.length : Int) - 1
  else s.cursorY + (env.height - 1)

/-- The `KeyPgDn` case. -/
def handlePgDn (env : Env) (s : EState) : Option EState :=
  if s.cursorY < (s.content.length : Int) - 1 then do
    let line ← goIndex s.content (pgDnNewY env s)
    let newX := if s.cursorX > (line.length : Int) then (line.length : Int) else s.cursorX
    some { s with cursorY := pgDnNewY env s, cursorX := newX }
  else some s

/-- The `KeyHome` case. -/
def handleHome (s : EState) : Option EState :=
  some { s with cursorX := 0 }

/-- The `KeyEnd` case. -/
def handleEnd (s : EState) : Option EState :=
  if s.cursorY < (s.content.length : Int) then do
    let line ← goIndex s.content s.cursorY
    some { s with cursorX := (line.length : Int) }
  else some s

/-- The `KeyEnter` case.  On the virtual line a fresh empty line is
appended; otherwise the current line is split at the cursor.  The
make/copy surgery in the source builds
`content[:y+1] ++ [right] ++ content[y+1:]` with `content[y]` already
replaced by the left part, which the `take`/`drop` expression below
reproduces. -/
def handleEnter (s : EState) : Option EState :=
  if s.cursorY = (s.content.length : Int) then
    some { s with content := s.content ++ [[]],
                  cursorY := (s.content.length : Int), cursorX := 0, modified := true }
  else do
    let currentLine ← goIndex s.content s.cursorY
    let leftPart ← goSliceTo currentLine s.cursorX
    let rightPart := if s.cursorX < (currentLine.length : Int) then
        currentLine.drop s.cursorX.toNat else []
    let y := s.cursorY.toNat
    let base := s.content.set y leftPart
    some { s with content := base.take (y + 1) ++ [rightPart] ++ base.drop (y + 1),
                  cursorY := s.cursorY + 1, cursorX := 0, modified := true }

/-- The `KeyBackspace` case: in-line deletion, or (at column 0) merge
with the previous line, the new column fixed to the previous line's
length before the merge. -/
def handleBackspace (s : EState) : Option EState :=
  if s.cursorX > 0 then do
    let currentLine ← goIndex s.content s.cursorY
    let l ← goSliceTo currentLine (s.cursorX - 1)
    let r ← goSliceFrom currentLine s.cursorX
    some { s with content := s.content.set s.cursorY.toNat (l ++ r),
                  cursorX := s.cursorX - 1, modified := true }
  else if s.cursorY > 0 then do
    let previousLine ← goIndex s.content (s.cursorY - 1)
    let currentLine ← goIndex s.content s.cursorY
    let y := s.cursorY.toNat
    let base := s.content.set (y - 1) (previousLine ++ currentLine)
    some { s with content := base.take y ++ base.drop (y + 1),
                  cursorX := (previousLine.length : Int), cursorY := s.cursorY - 1,
                  modified := true }
  else some s

/-- The `KeyDelete` case: in-line deletion at the cursor, or (at end of
line) merge with the next line. -/
def handleDelete (s : EState) : Option EState :=
  if s.cursorY < (s.content.length : Int) then do
    let currentLine ← goIndex s.content s.cursorY
    if s.cursorX < (currentLine.length : Int) then do
      let l ← goSliceTo currentLine s.cursorX
      let r ← goSliceFrom currentLine (s.cursorX + 1)
      some { s with content := s.content.set s.cursorY.toNat (l ++ r), modified := true }
    else if s.cursorY < (s.content.length : Int) - 1 then
      let y := s.cursorY.toNat
      let nextLine := s.content.getD (y + 1) []
      let base := s.content.set y (currentLine ++ nextLine)
      some { s with content := base.take (y + 1) ++ base.drop (y + 2), modified := true }
    else some s
  else some s

/-- The four spaces the `KeyTab` case inserts. -/
def tabSpaces : Line := "    ".toList

/-- The `KeyTab` case: pads with spaces when the cursor sits past the
end of the line, then inserts four spaces; either way the line at the
cursor row is replaced and the cursor advances by 4. -/
def handleTab (s : EState) : Option EState := do
  let currentLine ← goIndex s.content s.cursorY
  if s.cursorX > (currentLine.length : Int) then
    some { s with
      content := s.content.set s.cursorY.toNat
        (currentLine ++ List.replicate (s.cursorX.toNat - currentLine.length) ' ' ++ tabSpaces),
      cursorX := s.cursorX + 4, modified := true }
  else do
    let l ← goSliceTo currentLine s.cursorX
    some { s with
      content := s.content.set s.cursorY.toNat
        (l ++ tabSpaces ++ currentLine.drop s.cursorX.toNat),
      cursorX := s.cursorX + 4, modified := true }

/-- The `KeyRune` case: pads with spaces when the cursor sits past the
end of the line, then inserts the typed character; either way the line
at the cursor row is replaced and the cursor advances by 1. -/
def handleRune (s : EState) (r : Char) : Option EState := do
  let currentLine ← goIndex s.content s.cursorY
  if s.cursorX > (currentLine.length : Int) then
    some { s with
      content := s.content.set s.cursorY.toNat
        (currentLine ++ List.replicate (s.cursorX.toNat - currentLine.length) ' ' ++ [r]),
      cursorX := s.cursorX + 1, modified := true }
  else do
    let l ← goSliceTo currentLine s.cursorX
    some { s with
      content := s.content.set s.cursorY.toNat
        (l ++ [r] ++ currentLine.drop s.cursorX.toNat),
      cursorX := s.cursorX + 1, modified := true }

/-- `insertTextAtCursor`: single-line paste, padding with spaces when
the cursor sits past the end of the line. -/
def insertTextAtCursor (s : EState) (text : Line) : Option EState := do
  let currentLine ← goIndex s.content s.cursorY
  if s.cursorX > (currentLine.length : Int) then
    some { s with
      content := s.content.set s.cursorY.toNat
        (currentLine ++ List.replicate (s.cursorX.toNat - currentLine.length) ' ' ++ text),
      cursorX := s.cursorX + (text.length : Int) }
  else do
    let l ← goSliceTo currentLine s.cursorX
    some { s with
      content := s.content.set s.cursorY.toNat
        (l ++ text ++ currentLine.drop s.cursorX.toNat),
      cursorX := s.cursorX + (text.length : Int) }

/-- The `for i := 1; i < len(lines)-1; i++` loop of `insertMultiLineText`,
which writes `lines[1] … lines[len-2]` at consecutive positions starting
at `pos = cursorY + 1`. -/
def writeSeq (nc : List Line) (pos : Nat) : List Line → List Line
  | [] => nc
  | l :: ls => writeSeq (nc.set pos l) (pos + 1) ls

/-- `insertMultiLineText`: allocates `len(content) + len(lines) - 1`
slots, copies the head of the document, writes the stitched first line,
the interior pasted lines and the stitched last line, advances the
cursor, and only then copies the document tail from the *new* cursor
row onward (`copy(newContent[e.cursorY+1:], e.content[e.cursorY+1:])`
runs after `e.cursorY += lastIdx`).  `none` models the panic of the
slice expression `e.content[e.cursorY+1:]` when `cursorY + 1` exceeds
the old document length. -/
def insertMultiLineText (s : EState) (lines : List Line) : Option EState := do
  let currentLine ← goIndex s.content s.cursorY
  let leftPart ← goSliceTo currentLine s.cursorX
  let rightPart := if s.cursorX < (currentLine.length : Int) then
      currentLine.drop s.cursorX.toNat else []
  let l0 ← goIndex lines 0
  let newFirstLine := leftPart ++ l0
  let y := s.cursorY.toNat
  let n := s.content.length
  let nc := List.replicate (n + lines.length - 1) ([] : Line)
  let nc := goCopy nc 0 (s.content.take y)
  let nc := nc.set y newFirstLine
  let nc := writeSeq nc (y + 1) ((lines.drop 1).dropLast)
  if lines.length > 1 then do
    let lastIdx := lines.length - 1
    let lastLine := lines.getD lastIdx []
    let nc := nc.set (y + lastIdx) (lastLine ++ rightPart)
    let newY := s.cursorY + (lastIdx : Int)
    let tailSrc ← goSliceFrom s.content (newY + 1)
    let nc := goCopy nc (newY + 1).toNat tailSrc
    some { s with content := nc, cursorY := newY, cursorX := (lastLine.length : Int) }
  else do
    let tailSrc ← goSliceFrom s.content (s.cursorY + 1)
    let nc := goCopy nc (y + 1) tailSrc
    some { s with content := nc, cursorX := s.cursorX + (l0.length : Int) }

/-- `strings.Split(s, "\n")` (as used by `loadFile` and the clipboard
paste). -/
def splitLines (s : Line) : List Line :=
  match s with
  | [] => [[]]
  | c :: rest =>
    if c = '\n' then [] :: splitLines rest
    else
      match splitLines rest with
      | [] => [[c]]
      | l :: ls => (c :: l) :: ls

/-- `strings.Join(content, "\n")` (as used by `saveFile`). -/
def joinLines : List Line → Line
  | [] => []
  | [l] => l
  | l :: ls => l ++ '\n' :: joinLines ls

/-- `loadFile`: read the file and split its content on newlines. -/
def loadFile (fileBytes : Line) : List Line :=
  splitLines fileBytes

/-- `pasteFromClipboard`: a missing clipboard helper or failed command
(`clip = none`) and empty clipboard content are silent no-ops; otherwise
the content is split on newlines and inserted, and `modified` is set. -/
def pasteFromClipboard (env : Env) (s : EState) : Option EState :=
  match env.clip with
  | none => some s
  | some text =>
    if text.length = 0 then some s
    else if (splitLines text).length > 1 then
      (insertMultiLineText s (splitLines text)).map (fun s' => { s' with modified := true })
    else
      (insertTextAtCursor s text).map (fun s' => { s' with modified := true })

/-- `strings.ToLower` (ASCII view; the examples in scope are ASCII). -/
def toLowerLine (l : Line) : Line := l.map Char.toLower

/-- Whether `q` is a prefix of `hay` (the comparison `strings.Index`
performs at a candidate offset). -/
def hasPrefixB : Line → Line → Bool
  | _, [] => true
  | [], _ :: _ => false
  | c :: cs, d :: ds => c = d && hasPrefixB cs ds

/-- `strings.Index(hay, q)` restricted to its non-negative outcome:
the least offset at which `q` occurs, `none` for Go's `-1`. -/
def strIndexNat (hay q : Line) : Option Nat :=
  if hasPrefixB hay q then some 0
  else
    match hay with
    | [] => none
    | _ :: rest => (strIndexNat rest q).map (· + 1)

/-- The inner scan loop of `performSearch` over one (lowercased) line:
`startIdx` starts at 0 and, after a hit at `actualIdx`, resumes at
`actualIdx + len(query)`.  Returns the list of `actualIdx` values in
order.  The `query ≠ ""` guard is established by `performSearch` before
the loop runs; it is restated here so the function is total. -/
def scanFrom (lineLower query : Line) (startIdx : Nat) : List Nat :=
  if hq : query.length = 0 then []
  else
    match h : strIndexNat (lineLower.drop startIdx) query with
    | none => []
    | some foundIdx =>
      (startIdx + foundIdx) :: scanFrom lineLower query (startIdx + foundIdx + query.length)
termination_by lineLower.length + 1 - startIdx
decreasing_by
  have hp : ∀ (hay q : Line), hasPrefixB hay q = true → q.length ≤ hay.length := by
    intro hay
    induction hay with
    | nil =>
      intro q hq'
      cases q with
      | nil => simp
      | cons d ds => simp [hasPrefixB] at hq'
    | cons c cs ih =>
      intro q hq'
      cases q with
      | nil => simp
      | cons d ds =>
        simp only [hasPrefixB, Bool.and_eq_true] at hq'
        have := ih ds hq'.2
        simp only [List.length_cons]
        omega
  have key : ∀ (hay : Line) (i : Nat), strIndexNat hay query = some i →
      i + query.length ≤ hay.length := by
    intro hay
    induction hay with
    | nil =>
      intro i hi
      unfold strIndexNat at hi
      split at hi
      · rename_i hpre
        have := hp [] query hpre
        simp at hi
        omega
      · exact absurd hi (by simp)
    | cons c cs ih =>
      intro i hi
      unfold strIndexNat at hi
      split at hi
      · rename_i hpre
        have := hp (c :: cs) query hpre
        simp at hi
        omega
      · simp only [Option.map_eq_some'] at hi
        obtain ⟨j, hj, rfl⟩ := hi
        have := ih j hj
        simp only [List.length_cons]
        omega
  have hlen := key (lineLower.drop startIdx) foundIdx h
  simp only [List.length_drop] at hlen
  omega

/-- The line-by-line accumulation of `performSearch`: every match found
on line `lineIdx` is recorded as `(lineIdx, actualIdx, len(query))`, in
scan order. -/
def searchAllLines (content : List Line) (query : Line) : List SearchResult :=
  content.enum.flatMap fun p =>
    (scanFrom (toLowerLine p.2) query 0).map fun c => ⟨p.1, c, query.length⟩

/-- `navigateToSearchResult(idx)`: out-of-range indices are ignored;
otherwise the cursor jumps to the match and the viewport is reconciled. -/
def navigateToSearchResult (env : Env) (s : EState) (idx : Int) : EState :=
  if idx < 0 ∨ idx ≥ (s.searchResults.length : Int) then s
  else
    let r := s.searchResults.getD idx.toNat ⟨0, 0, 0⟩
    ensureVisibleCursor env { s with cursorY := (r.line : Int), cursorX := (r.col : Int) }

/-- `performSearch`: an empty query clears the matches; otherwise every
line is scanned against the lowercased query and, when matches exist,
the active index is set to 0 and the cursor navigates there. -/
def performSearch (env : Env) (s : EState) : EState :=
  if s.searchQuery = [] then
    { s with searchResults := [], currentSearchIdx := -1 }
  else
    let query := toLowerLine s.searchQuery
    let results := searchAllLines s.content query
    let s1 := { s with searchResults := results }
    if results.length > 0 then
      navigateToSearchResult env { s1 with currentSearchIdx := 0 } 0
    else { s1 with currentSearchIdx := -1 }

/-- The `KeyEnter` case of `handleSearchInput`: while matches exist,
advance the active index circularly (Go's `%` on the non-negative
index) and navigate to it. -/
def handleSearchEnter (env : Env) (s : EState) : EState :=
  if s.searchResults.length > 0 then
    let idx := (s.currentSearchIdx + 1).tmod (s.searchResults.length : Int)
    navigateToSearchResult env { s with currentSearchIdx := idx } idx
  else s

/-- The write step at the bottom of `saveFile`, once a usable file name
is in place: the bytes written are `joinLines content`; on `IOError`
`showMessage` is invoked (the message dialog) and nothing else changes,
on success the modified flag is cleared. -/
def doWrite (s : EState) (w : WriteRes) : EState :=
  match w with
  | .ioErr => { s with message := some saveErrMsg }
  | .ok => { s with modified := false }

/-- The event loop of `promptForFilename`, driven by the keys the user
will press (`none` when the script runs out while the dialog still
waits).  Returns the resulting state and whether a write was attempted.
On Enter with a non-empty name the path is assigned and `saveFile` runs;
since the new path is non-empty, `saveFile` performs the write unless
the user typed exactly `untitled.txt`, in which case it reopens the
prompt with an empty input field.  Escape abandons the dialog with no
write.  The `cap` bound models the dialog-width check on typed runes. -/
def promptLoop (env : Env) (s : EState) (input : Line) : List PKey → Option (EState × Bool)
  | [] => none
  | k :: rest =>
    match k with
    | .enter =>
      if input ≠ [] then
        if input = untitledName then promptLoop env { s with filePath := input } [] rest
        else some (doWrite { s with filePath := input } env.writeRes, true)
      else promptLoop env s input rest
    | .escape => some (s, false)
    | .backspace => promptLoop env s input.dropLast rest
    | .ch c =>
      if input.length < env.cap then promptLoop env s (input ++ [c]) rest
      else promptLoop env s input rest

/-- `promptForFilename`: the input field starts from the current path,
blanked when it is the placeholder `untitled.txt`. -/
def promptForFilename (env : Env) (s : EState) : Option (EState × Bool) :=
  promptLoop env s (if s.filePath = untitledName then [] else s.filePath) env.script

/-- `saveFile`: an unset or placeholder path defers to the filename
prompt, otherwise the document is serialized and written. -/
def saveFile (env : Env) (s : EState) : Option (EState × Bool) :=
  if s.filePath = [] ∨ s.filePath = untitledName then promptForFilename env s
  else some (doWrite s env.writeRes, true)

/-- The `handleKeyEvent` switch (normal editing mode).  `Ctrl-C` /
`Ctrl-X` / `Ctrl-F` (session termination and mode changes) are outside
the modelled key set; unrecognized keys fall through unchanged. -/
def handleKeyEvent (env : Env) (s : EState) (k : Key) : Option EState :=
  match k with
  | .up => handleUp env s
  | .down => handleDown env s
  | .left => handleLeft s
  | .right => handleRight s
  | .pgUp => handlePgUp env s
  | .pgDn => handlePgDn env s
  | .home => handleHome s
  | .endK => handleEnd s
  | .enter => handleEnter s
  | .backspace => handleBackspace s
  | .delete => handleDelete s
  | .tab => handleTab s
  | .rune c => handleRune s c
  | .ctrlS =>
    if s.filePath = untitledName ∧ env.onDisk = false then
      (promptForFilename env s).map Prod.fst
    else (saveFile env s).map Prod.fst
  | .ctrlV => pasteFromClipboard env s
  | .other => some s

/-- The button the user confirms in the exit dialog. -/
inductive ExitChoice
  | save
  | dontSave
  | cancel
deriving DecidableEq, Repr

/-- The Enter branch of `promptSaveBeforeExit` for each button.  Result
is `(state, a write was attempted, keep running)`; `keep running =
false` models `close(e.quit); e.screen.Fini(); return false` — session
termination.  The Save branch terminates unconditionally after the save
attempt, whatever the filename prompt did. -/
def promptSaveBeforeExit (env : Env) (s : EState) (choice : ExitChoice) :
    Option (EState × Bool × Bool) :=
  match choice with
  | .save =>
    if s.filePath = untitledName ∧ env.onDisk = false then
      (promptForFilename env s).map (fun p => (p.1, p.2, false))
    else
      (saveFile env s).map (fun p => (p.1, p.2, false))
  | .dontSave => some (s, false, false)
  | .cancel => some (s, false, true)

/-! ## Helper lemmas -/

theorem splitLines_no_nl (l : Line) (h : '\n' ∉ l) : splitLines l = [l] := by
  induction l with
  | nil => rfl
  | cons c cs ih =>
    simp only [List.mem_cons, not_or] at h
    have hc : ¬(c = '\n') := fun hc => h.1 (by rw [hc])
    simp only [splitLines, if_neg hc, ih h.2]

theorem splitLines_sep (l t : Line) (h : '\n' ∉ l) :
    splitLines (l ++ '\n' :: t) = l :: splitLines t := by
  induction l with
  | nil => simp [splitLines]
  | cons c cs ih =>
    simp only [List.mem_cons, not_or] at h
    have hc : ¬(c = '\n') := fun hc => h.1 (by rw [hc])
    simp only [List.cons_append, splitLines, if_neg hc, List.append_eq, ih h.2]

theorem append_cons_set {α : Type} (pre : List α) (i : Nat) (h : i = pre.length)
    (a b : α) (rest : List α) : (pre ++ a :: rest).set i b = pre ++ b :: rest := by
  subst h
  induction pre with
  | nil => rfl
  | cons p ps ih => simpa using ih

theorem append_cons_getElem? {α : Type} (pre : List α) (i : Nat) (h : i = pre.length)
    (a : α) (rest : List α) : (pre ++ a :: rest)[i]? = some a := by
  subst h
  induction pre with
  | nil => simp
  | cons p ps ih => simpa using ih

theorem append_cons2_getElem? {α : Type} (pre : List α) (i : Nat) (h : i = pre.length)
    (a b : α) (rest : List α) : (pre ++ a :: b :: rest)[i + 1]? = some b := by
  subst h
  induction pre with
  | nil => simp
  | cons p ps ih => simpa using ih

theorem append_cons_take {α : Type} (pre : List α) (i : Nat) (h : i = pre.length)
    (a : α) (rest : List α) : (pre ++ a :: rest).take (i + 1) = pre ++ [a] := by
  subst h
  induction pre with
  | nil => rfl
  | cons p ps ih => simpa using ih

theorem append_cons2_drop {α : Type} (pre : List α) (i : Nat) (h : i = pre.length)
    (a b : α) (rest : List α) : (pre ++ a :: b :: rest).drop (i + 2) = rest := by
  subst h
  induction pre with
  | nil => rfl
  | cons p ps ih => simpa using ih

theorem take_getD_drop {α : Type} (c : List α) (y : Nat) (d : α) (h : y < c.length) :
    c.take y ++ c.getD y d :: c.drop (y + 1) = c := by
  induction c generalizing y with
  | nil => simp at h
  | cons a t ih =>
    cases y with
    | zero => simp [List.getD]
    | succ y' =>
      simp only [List.take_succ_cons, List.drop_succ_cons, List.getD_cons_succ,
        List.cons_append, List.cons.injEq, true_and]
      exact ih y' (by simpa using h)

theorem set_take_succ {α : Type} (c : List α) (y : Nat) (u : α) (h : y < c.length) :
    (c.set y u).take (y + 1) = c.take y ++ [u] := by
  induction c generalizing y with
  | nil => simp at h
  | cons a t ih =>
    cases y with
    | zero => simp
    | succ y' =>
      simp only [List.set_cons_succ, List.take_succ_cons, List.cons_append, List.cons.injEq,
        true_and]
      exact ih y' (by simpa using h)

/-! ## C3 -/

/-- C3: splitting a real line at any in-range column (the Enter
handler) and then merging that row with its successor (the
Delete-at-end-of-line handler, cursor back at the split point)
reconstructs the original line and leaves the whole document exactly as
it was. -/
theorem C3_split_merge_round_trip (s : EState) (y x : Nat)
    (hy : s.cursorY = (y : Int)) (hx : s.cursorX = (x : Int))
    (hylen : y < s.content.length)
    (hxlen : x ≤ (s.content.getD y []).length) :
    ∃ s1 s2, handleEnter s = some s1 ∧
      handleDelete { s1 with cursorY := (y : Int), cursorX := (x : Int) } = some s2 ∧
      s2.content = s.content := by
  have hl : s.content.getD y [] = s.content[y] := by
    rw [List.getD_eq_getElem?_getD, List.getElem?_eq_getElem hylen, Option.getD_some]
  set c := s.content with hc
  set line := c.getD y [] with hlinedef
  -- evaluate handleEnter
  have hyne : ¬(s.cursorY = (c.length : Int)) := by
    rw [hy]
    intro hcontra
    have : y = c.length := by exact_mod_cast hcontra
    omega
  have hgi : goIndex c s.cursorY = some line := by
    rw [hy]
    unfold goIndex
    rw [if_pos (Int.natCast_nonneg y), Int.toNat_natCast, hl,
      List.getElem?_eq_getElem hylen]
  have hslice : goSliceTo line s.cursorX = some (line.take x) := by
    rw [hx]
    unfold goSliceTo
    rw [if_pos ⟨Int.natCast_nonneg x, by exact_mod_cast hxlen⟩, Int.toNat_natCast]
  have hright : (if s.cursorX < (line.length : Int) then line.drop s.cursorX.toNat else []) =
      line.drop x := by
    rw [hx, Int.toNat_natCast]
    split_ifs with hlt
    · rfl
    · have : x = line.length := by
        have : ¬(x < line.length) := by exact_mod_cast hlt
        omega
      rw [this, List.drop_length]
  have htonat : s.cursorY.toNat = y := by rw [hy, Int.toNat_natCast]
  have hbt : (c.set y (line.take x)).take (y + 1) = c.take y ++ [line.take x] :=
    set_take_succ c y (line.take x) hylen
  have hbd : (c.set y (line.take x)).drop (y + 1) = c.drop (y + 1) := by
    rw [List.drop_set, if_pos (by omega)]
  have henter : handleEnter s =
      some { s with
        content := c.take y ++ line.take x :: line.drop x :: c.drop (y + 1),
        cursorY := s.cursorY + 1, cursorX := 0, modified := true } := by
    unfold handleEnter
    rw [← hc, if_neg hyne, hgi]
    simp only [Option.bind_eq_bind, Option.some_bind]
    rw [hslice]
    simp only [Option.bind_eq_bind, Option.some_bind, hright, htonat]
    rw [hbt, hbd]
    simp [List.append_assoc]
  -- evaluate handleDelete on the split state
  set c1 := c.take y ++ line.take x :: line.drop x :: c.drop (y + 1) with hc1
  have hpre : y = (c.take y).length := by
    rw [List.length_take]
    omega
  have hlen1 : c1.length = c.length + 1 := by
    rw [hc1]
    simp only [List.length_append, List.length_cons, List.length_take, List.length_drop]
    omega
  have hgi1 : goIndex c1 ((y : Nat) : Int) = some (line.take x) := by
    unfold goIndex
    rw [if_pos (Int.natCast_nonneg y), Int.toNat_natCast, hc1,
      append_cons_getElem? _ y hpre]
  have hxlen' : (line.take x).length = x := by
    rw [List.length_take]
    omega
  have hnext : c1.getD (y + 1) [] = line.drop x := by
    rw [List.getD_eq_getElem?_getD, hc1, append_cons2_getElem? _ y hpre,
      Option.getD_some]
  have hset : c1.set y (line.take x ++ line.drop x) =
      c.take y ++ line :: line.drop x :: c.drop (y + 1) := by
    rw [hc1, append_cons_set _ y hpre, List.take_append_drop]
  have hbt2 : (c.take y ++ line :: line.drop x :: c.drop (y + 1)).take (y + 1) =
      c.take y ++ [line] :=
    append_cons_take _ y hpre line _
  have hbd2 : (c.take y ++ line :: line.drop x :: c.drop (y + 1)).drop (y + 2) =
      c.drop (y + 1) :=
    append_cons2_drop _ y hpre line _ _
  have hmerge : handleDelete
        { s with
          content := c1, cursorY := ((y : Nat) : Int),
          cursorX := ((x : Nat) : Int), modified := true } =
      some { s with
        content := c, cursorY := ((y : Nat) : Int),
        cursorX := ((x : Nat) : Int), modified := true } := by
    unfold handleDelete
    dsimp only
    rw [if_pos (by rw [hlen1]; exact_mod_cast by omega), hgi1]
    simp only [Option.bind_eq_bind, Option.some_bind]
    rw [if_neg (by rw [hxlen']; omega), if_pos (by rw [hlen1]; push_cast; omega),
      Int.toNat_natCast, hnext, hset, hbt2, hbd2]
    rw [List.append_assoc, List.singleton_append, hlinedef, take_getD_drop c y [] hylen]
  exact ⟨_, _, henter, hmerge, rfl⟩

/-- Witness for C3 at the spec scenario `["abc","def"]`, cursor `(0,3)`. -/
theorem C3_split_merge_round_trip_witness :
    ∃ s1 s2,
      handleEnter ⟨['f'], [['a', 'b', 'c'], ['d', 'e', 'f']], 3, 0, 0, false, [], [], -1, 0,
        none⟩ = some s1 ∧
      handleDelete { s1 with cursorY := ((0 : Nat) : Int), cursorX := ((3 : Nat) : Int) } =
        some s2 ∧
      s2.content = [['a', 'b', 'c'], ['d', 'e', 'f']] :=
  C3_split_merge_round_trip
    ⟨['f'], [['a', 'b', 'c'], ['d', 'e', 'f']], 3, 0, 0, false, [], [], -1, 0, none⟩
    0 3 (by decide) (by decide) (by decide) (by decide)

/-! ## C8 -/

/-- C8: saving serializes the document by joining lines with a single
newline and loading splits on newlines, so save-then-load reproduces the
exact original line sequence (and count), including a trailing empty
line. -/
theorem C8_save_load_round_trip (doc : List Line) (h1 : doc ≠ [])
    (h2 : ∀ l ∈ doc, '\n' ∉ l) : loadFile (joinLines doc) = doc := by
  induction doc with
  | nil => exact absurd rfl h1
  | cons l rest ih =>
    cases rest with
    | nil =>
      show splitLines (joinLines [l]) = [l]
      rw [show joinLines [l] = l from rfl, splitLines_no_nl l (h2 l (by simp))]
    | cons r rs =>
      show splitLines (joinLines (l :: r :: rs)) = l :: r :: rs
      rw [show joinLines (l :: r :: rs) = l ++ '\n' :: joinLines (r :: rs) from rfl,
        splitLines_sep _ _ (h2 l (by simp))]
      have hr := ih (by simp) (fun x hx => h2 x (by simp [hx]))
      rw [show loadFile (joinLines (r :: rs)) = splitLines (joinLines (r :: rs)) from rfl] at hr
      rw [hr]

/-- Witness for C8 at a document with a trailing empty line. -/
theorem C8_save_load_round_trip_witness :
    loadFile (joinLines [['a', 'b'], []]) = [['a', 'b'], []] :=
  C8_save_load_round_trip [['a', 'b'], []] (by decide) (by decide)

/-! ## C7 -/

/-- C7: after `ensureVisibleCursor` the (possibly clamped) cursor row
lies inside the `height - 1`-row window: `scrollTop ≤ row < scrollTop +
(height-1)`; the scroll offset is set to the row when the cursor was
above the window, to `row - (height-1) + 1` when at or below its end,
and is untouched otherwise. -/
theorem C7_ensure_visible (env : Env) (s : EState) (h : 2 ≤ env.height) :
    ((ensureVisibleCursor env s).scrollY ≤ (ensureVisibleCursor env s).cursorY ∧
      (ensureVisibleCursor env s).cursorY <
        (ensureVisibleCursor env s).scrollY + (env.height - 1)) ∧
    ((ensureVisibleCursor env s).cursorY < s.scrollY →
      (ensureVisibleCursor env s).scrollY = (ensureVisibleCursor env s).cursorY) ∧
    (s.scrollY + (env.height - 1) ≤ (ensureVisibleCursor env s).cursorY →
      (ensureVisibleCursor env s).scrollY =
        (ensureVisibleCursor env s).cursorY - (env.height - 1) + 1) ∧
    (s.scrollY ≤ (ensureVisibleCursor env s).cursorY →
      (ensureVisibleCursor env s).cursorY < s.scrollY + (env.height - 1) →
      (ensureVisibleCursor env s).scrollY = s.scrollY) := by
  unfold ensureVisibleCursor
  dsimp only
  split_ifs <;> simp_all <;> omega

/-- Witness for C7 with a cursor far below the window. -/
theorem C7_ensure_visible_witness :
    (ensureVisibleCursor ⟨5, WriteRes.ok, [], 0, none, false⟩
        ⟨[], [[], [], []], 0, 10, 0, false, [], [], -1, 0, none⟩).scrollY ≤
      (ensureVisibleCursor ⟨5, WriteRes.ok, [], 0, none, false⟩
        ⟨[], [[], [], []], 0, 10, 0, false, [], [], -1, 0, none⟩).cursorY ∧
    (ensureVisibleCursor ⟨5, WriteRes.ok, [], 0, none, false⟩
        ⟨[], [[], [], []], 0, 10, 0, false, [], [], -1, 0, none⟩).cursorY <
      (ensureVisibleCursor ⟨5, WriteRes.ok, [], 0, none, false⟩
        ⟨[], [[], [], []], 0, 10, 0, false, [], [], -1, 0, none⟩).scrollY + (5 - 1) :=
  (C7_ensure_visible ⟨5, WriteRes.ok, [], 0, none, false⟩
    ⟨[], [[], [], []], 0, 10, 0, false, [], [], -1, 0, none⟩ (by decide)).1

/-! ## C9 -/

/-- C9 counterexample: the claim says the counter increments only on a
consecutive *identical* directional key and "resets to zero on any
other key".  Both fail: after an `'a'` keystroke with the counter at 1
the code leaves the counter at 1, not 0 (only a space rune, or the
counter reaching 20, resets it); and a Down directly after an Up — not
an identical directional key, so per the claim a reset to 0 — takes the
counter from 0 to 2. -/
theorem C9_counter_not_reset_cex :
    ((updateCounter (Key.rune 'a') 1).1 = 1 ∧ (updateCounter (Key.rune 'a') 1).1 ≠ 0) ∧
    ((updateCounter Key.down (updateCounter Key.up 0).1).1 = 2 ∧
      (updateCounter Key.down (updateCounter Key.up 0).1).1 ≠ 0) := by
  decide

/-- C9 amended: the counter increments on every directional (arrow) key
— identical to the previous one or not — resets to zero when a space
rune is typed or when it reaches 20 (both forcing a redraw), and is
left unchanged (with a redraw) by every other key; the per-press row
delta is the pure function of the counter prescribed by the spec:
1 for counter ≤ 5, 3 for ≤ 10, 5 for ≤ 15, and 10 beyond. -/
theorem C9_counter_and_delta (c : Int) :
    (∀ k, isArrowKey k = true →
      updateCounter k c = if c + 1 ≥ 20 then (0, true) else (c + 1, false)) ∧
    updateCounter (Key.rune ' ') c = (0, true) ∧
    (∀ k, isArrowKey k = false → k ≠ Key.rune ' ' → updateCounter k c = (c, true)) ∧
    moveAmount c = (if c ≤ 5 then 1 else if c ≤ 10 then 3 else if c ≤ 15 then 5 else 10) := by
  refine ⟨?_, ?_, ?_, ?_⟩
  · intro k hk
    cases k <;> simp_all [isArrowKey, updateCounter] <;> split_ifs <;> simp_all <;> omega
  · simp [updateCounter, isArrowKey]
  · intro k hk hne
    cases k <;> simp_all [isArrowKey, updateCounter]
  · unfold moveAmount
    split_ifs <;> omega

/-- Witness for C9's amended statement at counter 7. -/
theorem C9_counter_and_delta_witness :
    updateCounter Key.up 7 = (8, false) ∧ updateCounter (Key.rune 'q') 7 = (7, true) := by
  have h := C9_counter_and_delta 7
  refine ⟨?_, ?_⟩
  · have h1 := h.1 Key.up rfl
    norm_num at h1
    exact h1
  · exact h.2.2.1 (Key.rune 'q') rfl (by decide)

theorem ensureVisibleCursor_preserve (env : Env) (t : EState) :
    (ensureVisibleCursor env t).content = t.content ∧
    (ensureVisibleCursor env t).modified = t.modified ∧
    (ensureVisibleCursor env t).filePath = t.filePath ∧
    (ensureVisibleCursor env t).searchQuery = t.searchQuery ∧
    (ensureVisibleCursor env t).searchResults = t.searchResults ∧
    (ensureVisibleCursor env t).currentSearchIdx = t.currentSearchIdx ∧
    (ensureVisibleCursor env t).keyCounter = t.keyCounter ∧
    (ensureVisibleCursor env t).message = t.message := by
  unfold ensureVisibleCursor
  dsimp only
  split_ifs <;> simp

theorem ensureVisibleCursor_cursor_of_le (env : Env) (t : EState)
    (h : t.cursorY ≤ (t.content.length : Int)) :
    (ensureVisibleCursor env t).cursorY = t.cursorY ∧
    (ensureVisibleCursor env t).cursorX = t.cursorX := by
  unfold ensureVisibleCursor
  dsimp only
  split_ifs <;> simp_all <;> omega

theorem searchEnter_step (env : Env) (s : EState)
    (h0 : 0 ≤ s.currentSearchIdx)
    (hlt : s.currentSearchIdx < (s.searchResults.length : Int)) :
    (handleSearchEnter env s).currentSearchIdx =
      (s.currentSearchIdx + 1).tmod (s.searchResults.length : Int) ∧
    (handleSearchEnter env s).searchResults = s.searchResults := by
  have hpos : 0 < s.searchResults.length := by omega
  have hposZ : (0 : Int) < (s.searchResults.length : Int) := by exact_mod_cast hpos
  have hidx0 : 0 ≤ (s.currentSearchIdx + 1).tmod (s.searchResults.length : Int) :=
    Int.tmod_nonneg _ (by omega)
  have hidxlt : (s.currentSearchIdx + 1).tmod (s.searchResults.length : Int) <
      (s.searchResults.length : Int) := Int.tmod_lt_of_pos _ hposZ
  unfold handleSearchEnter
  rw [if_pos hpos]
  unfold navigateToSearchResult
  dsimp only
  rw [if_neg (by push_neg; exact ⟨by omega, by omega⟩)]
  have hp := ensureVisibleCursor_preserve env
    { s with
      currentSearchIdx := (s.currentSearchIdx + 1).tmod (s.searchResults.length : Int),
      cursorY := (((s.searchResults.getD
        ((s.currentSearchIdx + 1).tmod (s.searchResults.length : Int)).toNat
        ⟨0, 0, 0⟩).line : Nat) : Int),
      cursorX := (((s.searchResults.getD
        ((s.currentSearchIdx + 1).tmod (s.searchResults.length : Int)).toNat
        ⟨0, 0, 0⟩).col : Nat) : Int) }
  exact ⟨hp.2.2.2.2.2.1, hp.2.2.2.2.1⟩

theorem searchEnter_iterate (env : Env) (n : Nat) (hn : 0 < n) :
    ∀ (k : Nat) (s : EState), s.searchResults.length = n →
      0 ≤ s.currentSearchIdx → s.currentSearchIdx < (n : Int) →
      ((fun t => handleSearchEnter env t)^[k] s).searchResults.length = n ∧
      ((fun t => handleSearchEnter env t)^[k] s).currentSearchIdx =
        (s.currentSearchIdx + (k : Int)).tmod (n : Int) := by
  have hnz : (0 : Int) < (n : Int) := by exact_mod_cast hn
  intro k
  induction k with
  | zero =>
    intro s hlen h0 hlt
    refine ⟨hlen, ?_⟩
    simp only [Function.iterate_zero, id_eq, Nat.cast_zero, Int.add_zero]
    rw [Int.tmod_eq_of_lt h0 hlt]
  | succ k ih =>
    intro s hlen h0 hlt
    rw [Function.iterate_succ_apply]
    have hstep := searchEnter_step env s h0 (by rw [hlen]; exact hlt)
    have hlen' : (handleSearchEnter env s).searchResults.length = n := by
      rw [hstep.2, hlen]
    have hidx' : (handleSearchEnter env s).currentSearchIdx =
        (s.currentSearchIdx + 1).tmod (n : Int) := by
      rw [hstep.1, hlen]
    have h0' : 0 ≤ (handleSearchEnter env s).currentSearchIdx := by
      rw [hidx']
      exact Int.tmod_nonneg _ (by omega)
    have hlt' : (handleSearchEnter env s).currentSearchIdx < (n : Int) := by
      rw [hidx']
      exact Int.tmod_lt_of_pos _ hnz
    obtain ⟨hL, hI⟩ := ih (handleSearchEnter env s) hlen' h0' hlt'
    refine ⟨hL, ?_⟩
    rw [hI, hidx']
    rw [Int.tmod_eq_emod (by omega) (by omega),
      Int.tmod_eq_emod (by omega) (by omega),
      Int.tmod_eq_emod (by omega) (by omega)]
    rw [Int.emod_add_emod]
    congr 1
    push_cast
    omega

/-! ## C5 -/

/-- C5: while matches exist, "next" advances the active index to
`(activeIndex + 1) mod len(matches)` and moves the cursor to that
match's `(row, column)` (the viewport then reconciled around it);
consequently pressing "next" `len(matches)` times returns the active
index to its starting value. -/
theorem C5_search_next_cyclic (env : Env) (s : EState)
    (hne : s.searchResults ≠ [])
    (h0 : 0 ≤ s.currentSearchIdx)
    (hlt : s.currentSearchIdx < (s.searchResults.length : Int)) :
    ((handleSearchEnter env s).currentSearchIdx =
        (s.currentSearchIdx + 1).tmod (s.searchResults.length : Int) ∧
      (handleSearchEnter env s).searchResults = s.searchResults) ∧
    (∀ r : SearchResult,
      s.searchResults.getD
          ((s.currentSearchIdx + 1).tmod (s.searchResults.length : Int)).toNat
          ⟨0, 0, 0⟩ = r →
      (r.line : Int) ≤ (s.content.length : Int) →
      (handleSearchEnter env s).cursorY = (r.line : Int) ∧
      (handleSearchEnter env s).cursorX = (r.col : Int)) ∧
    ((fun t => handleSearchEnter env t)^[s.searchResults.length] s).currentSearchIdx =
      s.currentSearchIdx := by
  have hpos : 0 < s.searchResults.length := List.length_pos.mpr hne
  have hposZ : (0 : Int) < (s.searchResults.length : Int) := by exact_mod_cast hpos
  refine ⟨searchEnter_step env s h0 hlt, ?_, ?_⟩
  · intro r hr hrle
    have hidx0 : 0 ≤ (s.currentSearchIdx + 1).tmod (s.searchResults.length : Int) :=
      Int.tmod_nonneg _ (by omega)
    have hidxlt : (s.currentSearchIdx + 1).tmod (s.searchResults.length : Int) <
        (s.searchResults.length : Int) := Int.tmod_lt_of_pos _ hposZ
    unfold handleSearchEnter
    rw [if_pos hpos]
    unfold navigateToSearchResult
    dsimp only
    rw [if_neg (by push_neg; exact ⟨by omega, by omega⟩), hr]
    exact ensureVisibleCursor_cursor_of_le env _ (by dsimp only; exact hrle)
  · have := (searchEnter_iterate env s.searchResults.length hpos
      s.searchResults.length s rfl h0 hlt).2
    rw [this]
    rw [Int.tmod_eq_emod (by omega) (by omega)]
    rw [show s.currentSearchIdx + (s.searchResults.length : Int) =
      s.currentSearchIdx + (s.searchResults.length : Int) * 1 by ring]
    rw [Int.add_mul_emod_self_left]
    exact Int.emod_eq_of_lt h0 hlt

/-- Witness for C5: two matches, active index 0 — one press moves to
match 1, two presses return to 0. -/
theorem C5_search_next_cyclic_witness :
    (handleSearchEnter ⟨24, WriteRes.ok, [], 40, none, false⟩
        ⟨['f'], [['a', 'b', 'a', 'b']], 0, 0, 0, false, ['a', 'b'],
          [⟨0, 0, 2⟩, ⟨0, 2, 2⟩], 0, 0, none⟩).currentSearchIdx = ((0 : Int) + 1).tmod 2 ∧
    ((fun t => handleSearchEnter ⟨24, WriteRes.ok, [], 40, none, false⟩ t)^[2]
        ⟨['f'], [['a', 'b', 'a', 'b']], 0, 0, 0, false, ['a', 'b'],
          [⟨0, 0, 2⟩, ⟨0, 2, 2⟩], 0, 0, none⟩).currentSearchIdx = 0 := by
  have h := C5_search_next_cyclic ⟨24, WriteRes.ok, [], 40, none, false⟩
    ⟨['f'], [['a', 'b', 'a', 'b']], 0, 0, 0, false, ['a', 'b'],
      [⟨0, 0, 2⟩, ⟨0, 2, 2⟩], 0, 0, none⟩ (by decide) (by decide) (by decide)
  exact ⟨h.1.1, h.2.2⟩

theorem hasPrefixB_length : ∀ (hay q : Line), hasPrefixB hay q = true → q.length ≤ hay.length := by
  intro hay
  induction hay with
  | nil =>
    intro q hq
    cases q with
    | nil => simp
    | cons d ds => simp [hasPrefixB] at hq
  | cons c cs ih =>
    intro q hq
    cases q with
    | nil => simp
    | cons d ds =>
      simp only [hasPrefixB, Bool.and_eq_true] at hq
      have := ih ds hq.2
      simp only [List.length_cons]
      omega

theorem strIndexNat_some_le : ∀ (hay q : Line) (i : Nat),
    strIndexNat hay q = some i → i + q.length ≤ hay.length := by
  intro hay q
  induction hay with
  | nil =>
    intro i hi
    unfold strIndexNat at hi
    split at hi
    · rename_i hpre
      have := hasPrefixB_length [] q hpre
      simp at hi
      omega
    · exact absurd hi (by simp)
  | cons c cs ih =>
    intro i hi
    unfold strIndexNat at hi
    split at hi
    · rename_i hpre
      have := hasPrefixB_length (c :: cs) q hpre
      simp at hi
      omega
    · simp only [Option.map_eq_some'] at hi
      obtain ⟨j, hj, rfl⟩ := hi
      have := ih j hj
      simp only [List.length_cons]
      omega

theorem scanFrom_ge_aux (l q : Line) : ∀ (m s : Nat), l.length + 1 - s ≤ m →
    ∀ c ∈ scanFrom l q s, s ≤ c := by
  intro m
  induction m with
  | zero =>
    intro s hm c hc
    unfold scanFrom at hc
    split at hc
    · simp at hc
    · split at hc
      · simp at hc
      · rename_i hq foundIdx hfound
        exfalso
        have := strIndexNat_some_le _ _ _ hfound
        simp only [List.length_drop] at this
        omega
  | succ m ih =>
    intro s hm c hc
    unfold scanFrom at hc
    split at hc
    · simp at hc
    · split at hc
      · simp at hc
      · rename_i hq foundIdx hfound
        have hle := strIndexNat_some_le _ _ _ hfound
        simp only [List.length_drop] at hle
        simp only [List.mem_cons] at hc
        rcases hc with rfl | hc
        · omega
        · have := ih (s + foundIdx + q.length) (by omega) c hc
          omega

theorem scanFrom_ge (l q : Line) (s : Nat) : ∀ c ∈ scanFrom l q s, s ≤ c :=
  scanFrom_ge_aux l q (l.length + 1 - s) s (Nat.le_refl _)

theorem scanFrom_chain_aux (l q : Line) : ∀ (m s : Nat), l.length + 1 - s ≤ m →
    List.Chain' (fun a b => a + q.length ≤ b) (scanFrom l q s) := by
  intro m
  induction m with
  | zero =>
    intro s hm
    unfold scanFrom
    split
    · simp
    · split
      · simp
      · rename_i hq foundIdx hfound
        exfalso
        have := strIndexNat_some_le _ _ _ hfound
        simp only [List.length_drop] at this
        omega
  | succ m ih =>
    intro s hm
    unfold scanFrom
    split
    · simp
    · split
      · simp
      · rename_i hq foundIdx hfound
        have hle := strIndexNat_some_le _ _ _ hfound
        simp only [List.length_drop] at hle
        rw [List.chain'_cons']
        constructor
        · intro y hy
          have := scanFrom_ge l q (s + foundIdx + q.length) y (List.mem_of_mem_head? hy)
          omega
        · exact ih (s + foundIdx + q.length) (by omega)

theorem scanFrom_chain (l q : Line) (s : Nat) :
    List.Chain' (fun a b => a + q.length ≤ b) (scanFrom l q s) :=
  scanFrom_chain_aux l q (l.length + 1 - s) s (Nat.le_refl _)

theorem searchAll_from_ge (q : Line) : ∀ (content : List Line) (i : Nat) (r : SearchResult),
    r ∈ (List.enumFrom i content).flatMap
      (fun p => (scanFrom (toLowerLine p.2) q 0).map fun c => ⟨p.1, c, q.length⟩) →
    i ≤ r.line := by
  intro content
  induction content with
  | nil =>
    intro i r hr
    simp [List.enumFrom] at hr
  | cons line rest ih =>
    intro i r hr
    rw [List.enumFrom_cons, List.flatMap_cons] at hr
    rcases List.mem_append.mp hr with hr | hr
    · obtain ⟨c, _, rfl⟩ := List.mem_map.mp hr
      exact Nat.le_refl i
    · have := ih (i + 1) r hr
      omega

theorem searchAll_from_chain (q : Line) : ∀ (content : List Line) (i : Nat),
    List.Chain' (fun r1 r2 : SearchResult => r1.line < r2.line ∨
      (r1.line = r2.line ∧ r1.col + q.length ≤ r2.col))
      ((List.enumFrom i content).flatMap
        fun p => (scanFrom (toLowerLine p.2) q 0).map
          fun c => (⟨p.1, c, q.length⟩ : SearchResult)) := by
  intro content
  induction content with
  | nil =>
    intro i
    simp [List.enumFrom]
  | cons line rest ih =>
    intro i
    rw [List.enumFrom_cons, List.flatMap_cons]
    dsimp only
    rw [List.chain'_append]
    refine ⟨?_, ih (i + 1), ?_⟩
    · exact List.chain'_map_of_chain'
        (fun c => (⟨i, c, q.length⟩ : SearchResult))
        (fun a b hab => Or.inr ⟨rfl, hab⟩) (scanFrom_chain (toLowerLine line) q 0)
    · intro x hx y hy
      obtain ⟨c, _, rfl⟩ := List.mem_map.mp (List.mem_of_mem_getLast? hx)
      have hyline := searchAll_from_ge q rest (i + 1) y (List.mem_of_mem_head? hy)
      refine Or.inl ?_
      show i < y.line
      omega

theorem navigate_preserve (env : Env) (t : EState) (idx : Int) :
    (navigateToSearchResult env t idx).searchResults = t.searchResults ∧
    (navigateToSearchResult env t idx).currentSearchIdx = t.currentSearchIdx := by
  unfold navigateToSearchResult
  split_ifs with h
  · exact ⟨rfl, rfl⟩
  · dsimp only
    have hp := ensureVisibleCursor_preserve env
      { t with
        cursorY := (((t.searchResults.getD idx.toNat ⟨0, 0, 0⟩).line : Nat) : Int),
        cursorX := (((t.searchResults.getD idx.toNat ⟨0, 0, 0⟩).col : Nat) : Int) }
    exact ⟨hp.2.2.2.2.1, hp.2.2.2.2.2.1⟩

theorem performSearch_results (env : Env) (s : EState) (hq : s.searchQuery ≠ []) :
    (performSearch env s).searchResults =
      searchAllLines s.content (toLowerLine s.searchQuery) := by
  unfold performSearch
  rw [if_neg hq]
  dsimp only
  split_ifs with h
  · exact (navigate_preserve env _ 0).1
  · rfl

/-! ## C4 -/

/-- C4: for every document and non-empty query the recomputed match
list is ordered by (row ascending, column ascending) with non-overlap:
consecutive matches are on a later row or at least `length query`
columns apart; and on lines `["xaby","abab"]` with query `"ab"` the
matches are exactly `[(0,1,2),(1,0,2),(1,2,2)]` in that order (active
index 0, cursor moved to the first match). -/
theorem C4_search_matches_ordered :
    (∀ (env : Env) (s : EState), s.searchQuery ≠ [] →
      List.Chain' (fun r1 r2 => r1.line < r2.line ∨
        (r1.line = r2.line ∧ r1.col + s.searchQuery.length ≤ r2.col))
        (performSearch env s).searchResults) ∧
    performSearch ⟨24, WriteRes.ok, [], 40, none, false⟩
        ⟨['f'], [['x', 'a', 'b', 'y'], ['a', 'b', 'a', 'b']], 0, 0, 0, false,
          ['a', 'b'], [], -1, 0, none⟩ =
      ⟨['f'], [['x', 'a', 'b', 'y'], ['a', 'b', 'a', 'b']], 1, 0, 0, false,
        ['a', 'b'], [⟨0, 1, 2⟩, ⟨1, 0, 2⟩, ⟨1, 2, 2⟩], 0, 0, none⟩ := by
  constructor
  · intro env s hq
    rw [performSearch_results env s hq]
    unfold searchAllLines
    rw [List.enum_eq_enumFrom]
    have hlen : (toLowerLine s.searchQuery).length = s.searchQuery.length :=
      List.length_map _ _
    rw [← hlen]
    exact searchAll_from_chain (toLowerLine s.searchQuery) s.content 0
  · have h1 : toLowerLine ['x', 'a', 'b', 'y'] = ['x', 'a', 'b', 'y'] := by decide
    have h2 : toLowerLine ['a', 'b', 'a', 'b'] = ['a', 'b', 'a', 'b'] := by decide
    have h3 : toLowerLine ['a', 'b'] = ['a', 'b'] := by decide
    have s1 : scanFrom ['x', 'a', 'b', 'y'] ['a', 'b'] 0 = [1] := by
      simp [scanFrom, strIndexNat, hasPrefixB]
    have s2 : scanFrom ['a', 'b', 'a', 'b'] ['a', 'b'] 0 = [0, 2] := by
      simp [scanFrom, strIndexNat, hasPrefixB]
    simp [performSearch, searchAllLines, h1, h2, h3, s1, s2, List.enum_eq_enumFrom,
      navigateToSearchResult, ensureVisibleCursor]

/-- Witness for C4's ordering law at the scenario input. -/
theorem C4_search_matches_ordered_witness :
    List.Chain' (fun r1 r2 => r1.line < r2.line ∨
      (r1.line = r2.line ∧ r1.col + (['a', 'b'] : Line).length ≤ r2.col))
      (performSearch ⟨24, WriteRes.ok, [], 40, none, false⟩
        ⟨['f'], [['x', 'a', 'b', 'y'], ['a', 'b', 'a', 'b']], 0, 0, 0, false,
          ['a', 'b'], [], -1, 0, none⟩).searchResults :=
  C4_search_matches_ordered.1 ⟨24, WriteRes.ok, [], 40, none, false⟩
    ⟨['f'], [['x', 'a', 'b', 'y'], ['a', 'b', 'a', 'b']], 0, 0, 0, false,
      ['a', 'b'], [], -1, 0, none⟩ (by decide)

/-! ## C2 -/

/-- C2: typing a character never traps — refuted.  From `["a"]` with
the cursor at `(0,0)`, Down reaches the virtual line `(1,0)`; the
`KeyRune` case then evaluates `e.content[e.cursorY]` with `cursorY = 1`
on a one-line document, an index out of range (modelled `none`),
instead of padding and inserting as the claim requires. -/
theorem C2_rune_on_virtual_line_traps :
    handleKeyEvent ⟨24, WriteRes.ok, [], 40, none, false⟩
        ⟨['f'], [['a']], 0, 0, 0, false, [], [], -1, 0, none⟩ Key.down =
      some ⟨['f'], [['a']], 0, 1, 0, false, [], [], -1, 0, none⟩ ∧
    handleKeyEvent ⟨24, WriteRes.ok, [], 40, none, false⟩
        ⟨['f'], [['a']], 0, 1, 0, false, [], [], -1, 0, none⟩ (Key.rune 'x') = none := by
  decide

/-! ## C1 -/

/-- C1: multi-line paste — refuted.  The tail copy
`copy(newContent[e.cursorY+1:], e.content[e.cursorY+1:])` runs after
`cursorY` has been advanced to the last pasted row, so (first conjunct,
document `["ab","cd"]`, cursor `(0,1)`, paste `["X","Y"]`) the line
`"cd"` after the cursor row is not preserved: the result is
`["aX","Yb",""]`, not `["aX","Yb","cd"]`.  On the spec's own scenario
(`["ab"]`, cursor `(0,1)`, paste `["X","Y","Z"]`) the slice expression
`e.content[3:]` on a one-line document panics (modelled `none`) instead
of producing `["aX","Y","Zb"]`. -/
theorem C1_paste_drops_tail :
    (insertMultiLineText ⟨['f'], [['a', 'b'], ['c', 'd']], 1, 0, 0, false, [], [], -1, 0, none⟩
        [['X'], ['Y']] =
      some ⟨['f'], [['a', 'X'], ['Y', 'b'], []], 1, 1, 0, false, [], [], -1, 0, none⟩) ∧
    [['a', 'X'], ['Y', 'b'], ([] : Line)] ≠ [['a', 'X'], ['Y', 'b'], ['c', 'd']] ∧
    (insertMultiLineText ⟨['f'], [['a', 'b']], 1, 0, 0, false, [], [], -1, 0, none⟩
        [['X'], ['Y'], ['Z']] = none) := by
  decide

theorem handleUp_preserve (env : Env) (s s' : EState) (h : handleUp env s = some s') :
    s'.content = s.content ∧ s'.modified = s.modified := by
  unfold handleUp at h
  simp only [Option.bind_eq_bind, Option.bind_eq_some, Option.some.injEq] at h
  obtain ⟨line, hg, rfl⟩ := h
  exact ⟨(ensureVisibleCursor_preserve env _).1, (ensureVisibleCursor_preserve env _).2.1⟩

theorem handleDown_preserve (env : Env) (s s' : EState) (h : handleDown env s = some s') :
    s'.content = s.content ∧ s'.modified = s.modified := by
  unfold handleDown at h
  split at h
  · simp only [Option.bind_eq_bind, Option.bind_eq_some, Option.some.injEq] at h
    obtain ⟨line, hg, rfl⟩ := h
    exact ⟨(ensureVisibleCursor_preserve env _).1, (ensureVisibleCursor_preserve env _).2.1⟩
  · split at h <;>
    · simp only [Option.some.injEq] at h
      subst h
      exact ⟨(ensureVisibleCursor_preserve env _).1, (ensureVisibleCursor_preserve env _).2.1⟩

theorem handleLeft_preserve (s s' : EState) (h : handleLeft s = some s') :
    s'.content = s.content ∧ s'.modified = s.modified := by
  unfold handleLeft at h
  split at h
  · simp only [Option.some.injEq] at h
    subst h
    exact ⟨rfl, rfl⟩
  · split at h
    · simp only [Option.bind_eq_bind, Option.bind_eq_some, Option.some.injEq] at h
      obtain ⟨line, hg, rfl⟩ := h
      exact ⟨rfl, rfl⟩
    · simp only [Option.some.injEq] at h
      subst h
      exact ⟨rfl, rfl⟩

theorem handleRight_preserve (s s' : EState) (h : handleRight s = some s') :
    s'.content = s.content ∧ s'.modified = s.modified := by
  unfold handleRight at h
  split at h
  · simp only [Option.bind_eq_bind, Option.bind_eq_some, Option.some.injEq] at h
    obtain ⟨line, hg, h⟩ := h
    split at h <;>
    · simp only [Option.some.injEq] at h
      subst h
      exact ⟨rfl, rfl⟩
  · simp only [Option.some.injEq] at h
    subst h
    exact ⟨rfl, rfl⟩

theorem handlePgUp_preserve (env : Env) (s s' : EState) (h : handlePgUp env s = some s') :
    s'.content = s.content ∧ s'.modified = s.modified := by
  unfold handlePgUp at h
  split at h
  · simp only [Option.bind_eq_bind, Option.bind_eq_some, Option.some.injEq] at h
    obtain ⟨line, hg, rfl⟩ := h
    exact ⟨rfl, rfl⟩
  · simp only [Option.some.injEq] at h
    subst h
    exact ⟨rfl, rfl⟩

theorem handlePgDn_preserve (env : Env) (s s' : EState) (h : handlePgDn env s = some s') :
    s'.content = s.content ∧ s'.modified = s.modified := by
  unfold handlePgDn at h
  split at h
  · simp only [Option.bind_eq_bind, Option.bind_eq_some, Option.some.injEq] at h
    obtain ⟨line, hg, rfl⟩ := h
    exact ⟨rfl, rfl⟩
  · simp only [Option.some.injEq] at h
    subst h
    exact ⟨rfl, rfl⟩

theorem handleEnd_preserve (s s' : EState) (h : handleEnd s = some s') :
    s'.content = s.content ∧ s'.modified = s.modified := by
  unfold handleEnd at h
  split at h
  · simp only [Option.bind_eq_bind, Option.bind_eq_some, Option.some.injEq] at h
    obtain ⟨line, hg, rfl⟩ := h
    exact ⟨rfl, rfl⟩
  · simp only [Option.some.injEq] at h
    subst h
    exact ⟨rfl, rfl⟩

theorem handleEnter_modified (s s' : EState) (h : handleEnter s = some s') :
    s'.modified = true := by
  unfold handleEnter at h
  split at h
  · simp only [Option.some.injEq] at h
    subst h
    rfl
  · simp only [Option.bind_eq_bind, Option.bind_eq_some, Option.some.injEq] at h
    obtain ⟨line, hg, leftPart, hsl, rfl⟩ := h
    rfl

theorem handleTab_modified (s s' : EState) (h : handleTab s = some s') :
    s'.modified = true := by
  unfold handleTab at h
  simp only [Option.bind_eq_bind, Option.bind_eq_some] at h
  obtain ⟨line, hg, h⟩ := h
  split at h
  · simp only [Option.some.injEq] at h
    subst h
    rfl
  · simp only [Option.bind_eq_some, Option.some.injEq] at h
    obtain ⟨l, hl, rfl⟩ := h
    rfl

theorem handleRune_modified (s : EState) (r : Char) (s' : EState)
    (h : handleRune s r = some s') : s'.modified = true := by
  unfold handleRune at h
  simp only [Option.bind_eq_bind, Option.bind_eq_some] at h
  obtain ⟨line, hg, h⟩ := h
  split at h
  · simp only [Option.some.injEq] at h
    subst h
    rfl
  · simp only [Option.bind_eq_some, Option.some.injEq] at h
    obtain ⟨l, hl, rfl⟩ := h
    rfl

theorem handleBackspace_cases (s s' : EState) (h : handleBackspace s = some s') :
    s'.modified = true ∨ s' = s := by
  unfold handleBackspace at h
  split at h
  · simp only [Option.bind_eq_bind, Option.bind_eq_some, Option.some.injEq] at h
    obtain ⟨line, hg, l, hsl, r, hsr, rfl⟩ := h
    exact Or.inl rfl
  · split at h
    · simp only [Option.bind_eq_bind, Option.bind_eq_some, Option.some.injEq] at h
      obtain ⟨prev, hgp, line, hg, rfl⟩ := h
      exact Or.inl rfl
    · simp only [Option.some.injEq] at h
      exact Or.inr h.symm

theorem handleDelete_cases (s s' : EState) (h : handleDelete s = some s') :
    s'.modified = true ∨ s' = s := by
  unfold handleDelete at h
  split at h
  · simp only [Option.bind_eq_bind, Option.bind_eq_some] at h
    obtain ⟨line, hg, h⟩ := h
    split at h
    · simp only [Option.bind_eq_some, Option.some.injEq] at h
      obtain ⟨l, hsl, r, hsr, rfl⟩ := h
      exact Or.inl rfl
    · split at h
      · simp only [Option.some.injEq] at h
        subst h
        exact Or.inl rfl
      · simp only [Option.some.injEq] at h
        exact Or.inr h.symm
  · simp only [Option.some.injEq] at h
    exact Or.inr h.symm

theorem pasteFromClipboard_cases (env : Env) (s s' : EState)
    (h : pasteFromClipboard env s = some s') : s'.modified = true ∨ s' = s := by
  unfold pasteFromClipboard at h
  split at h
  · simp only [Option.some.injEq] at h
    exact Or.inr h.symm
  · split at h
    · simp only [Option.some.injEq] at h
      exact Or.inr h.symm
    · split at h
      · obtain ⟨s0, hm, rfl⟩ := Option.map_eq_some'.mp h
        exact Or.inl rfl
      · obtain ⟨s0, hm, rfl⟩ := Option.map_eq_some'.mp h
        exact Or.inl rfl

theorem promptLoop_invariant (env : Env) : ∀ (script : List PKey) (s : EState)
    (input : Line) (s' : EState) (b : Bool),
    promptLoop env s input script = some (s', b) →
    s'.content = s.content ∧
    (s'.modified = s.modified ∨ (s'.modified = false ∧ env.writeRes = WriteRes.ok)) := by
  intro script
  induction script with
  | nil =>
    intro s input s' b h
    simp [promptLoop] at h
  | cons k rest ih =>
    intro s input s' b h
    cases k with
    | enter =>
      simp only [promptLoop] at h
      split at h
      · split at h
        · exact ih { s with filePath := input } [] s' b h
        · simp only [Option.some.injEq, Prod.mk.injEq] at h
          obtain ⟨h1, -⟩ := h
          subst h1
          rcases hw : env.writeRes with _ | _
          · exact ⟨rfl, Or.inr ⟨rfl, rfl⟩⟩
          · exact ⟨rfl, Or.inl rfl⟩
      · exact ih _ _ _ _ h
    | escape =>
      simp only [promptLoop, Option.some.injEq, Prod.mk.injEq] at h
      obtain ⟨rfl, -⟩ := h
      exact ⟨rfl, Or.inl rfl⟩
    | backspace =>
      simp only [promptLoop] at h
      exact ih _ _ _ _ h
    | ch c =>
      simp only [promptLoop] at h
      split at h <;> exact ih _ _ _ _ h

/-! ## C6 -/

/-- C6: if a key event changes the buffer content, the modified flag is
set; the flag goes from `true` to `false` only through Ctrl-S with a
successful write; and a failed write on a named buffer only raises the
message dialog, leaving content and modified flag untouched so the save
can be retried. -/
theorem C6_modified_flag (env : Env) (s : EState) (k : Key) (s' : EState)
    (h : handleKeyEvent env s k = some s') :
    (s'.content ≠ s.content → s'.modified = true) ∧
    (s.modified = true → s'.modified = false → k = Key.ctrlS ∧ env.writeRes = WriteRes.ok) ∧
    (k = Key.ctrlS → env.writeRes = WriteRes.ioErr → s.filePath ≠ [] →
      s.filePath ≠ untitledName → s' = { s with message := some saveErrMsg }) := by
  cases k with
  | up =>
    obtain ⟨h1, h2⟩ := handleUp_preserve env s s' h
    exact ⟨fun hc => absurd h1 hc, fun hm hf => by simp_all, fun hk => by simp at hk⟩
  | down =>
    obtain ⟨h1, h2⟩ := handleDown_preserve env s s' h
    exact ⟨fun hc => absurd h1 hc, fun hm hf => by simp_all, fun hk => by simp at hk⟩
  | left =>
    obtain ⟨h1, h2⟩ := handleLeft_preserve s s' h
    exact ⟨fun hc => absurd h1 hc, fun hm hf => by simp_all, fun hk => by simp at hk⟩
  | right =>
    obtain ⟨h1, h2⟩ := handleRight_preserve s s' h
    exact ⟨fun hc => absurd h1 hc, fun hm hf => by simp_all, fun hk => by simp at hk⟩
  | pgUp =>
    obtain ⟨h1, h2⟩ := handlePgUp_preserve env s s' h
    exact ⟨fun hc => absurd h1 hc, fun hm hf => by simp_all, fun hk => by simp at hk⟩
  | pgDn =>
    obtain ⟨h1, h2⟩ := handlePgDn_preserve env s s' h
    exact ⟨fun hc => absurd h1 hc, fun hm hf => by simp_all, fun hk => by simp at hk⟩
  | home =>
    simp only [handleKeyEvent, handleHome, Option.some.injEq] at h
    subst h
    exact ⟨fun hc => absurd rfl hc, fun hm hf => by simp_all, fun hk => by simp at hk⟩
  | endK =>
    obtain ⟨h1, h2⟩ := handleEnd_preserve s s' h
    exact ⟨fun hc => absurd h1 hc, fun hm hf => by simp_all, fun hk => by simp at hk⟩
  | enter =>
    have h1 := handleEnter_modified s s' h
    exact ⟨fun _ => h1, fun hm hf => by simp_all, fun hk => by simp at hk⟩
  | backspace =>
    rcases handleBackspace_cases s s' h with h1 | rfl
    · exact ⟨fun _ => h1, fun hm hf => by simp_all, fun hk => by simp at hk⟩
    · exact ⟨fun hc => absurd rfl hc, fun hm hf => by simp_all, fun hk => by simp at hk⟩
  | delete =>
    rcases handleDelete_cases s s' h with h1 | rfl
    · exact ⟨fun _ => h1, fun hm hf => by simp_all, fun hk => by simp at hk⟩
    · exact ⟨fun hc => absurd rfl hc, fun hm hf => by simp_all, fun hk => by simp at hk⟩
  | tab =>
    have h1 := handleTab_modified s s' h
    exact ⟨fun _ => h1, fun hm hf => by simp_all, fun hk => by simp at hk⟩
  | rune c =>
    have h1 := handleRune_modified s c s' h
    exact ⟨fun _ => h1, fun hm hf => by simp_all, fun hk => by simp at hk⟩
  | ctrlV =>
    rcases pasteFromClipboard_cases env s s' h with h1 | rfl
    · exact ⟨fun _ => h1, fun hm hf => by simp_all, fun hk => by simp at hk⟩
    · exact ⟨fun hc => absurd rfl hc, fun hm hf => by simp_all, fun hk => by simp at hk⟩
  | other =>
    simp only [handleKeyEvent, Option.some.injEq] at h
    subst h
    exact ⟨fun hc => absurd rfl hc, fun hm hf => by simp_all, fun hk => by simp at hk⟩
  | ctrlS =>
    simp only [handleKeyEvent] at h
    split at h
    · rename_i hcond
      obtain ⟨p, hp, rfl⟩ := Option.map_eq_some'.mp h
      obtain ⟨s0, b⟩ := p
      unfold promptForFilename at hp
      have hinv := promptLoop_invariant env env.script s _ s0 b hp
      refine ⟨fun hc => absurd hinv.1 hc, fun hm hf => ?_, fun _ _ _ hnu => ?_⟩
      · rcases hinv.2 with heq | ⟨-, hok⟩
        · exfalso
          have hf' : s0.modified = false := hf
          rw [heq, hm] at hf'
          simp at hf'
        · exact ⟨rfl, hok⟩
      · exact absurd hcond.1 hnu
    · unfold saveFile at h
      split at h
      · rename_i hcond
        obtain ⟨p, hp, rfl⟩ := Option.map_eq_some'.mp h
        obtain ⟨s0, b⟩ := p
        unfold promptForFilename at hp
        have hinv := promptLoop_invariant env env.script s _ s0 b hp
        refine ⟨fun hc => absurd hinv.1 hc, fun hm hf => ?_, fun _ _ hne hnu => ?_⟩
        · rcases hinv.2 with heq | ⟨-, hok⟩
          · exfalso
            have hf' : s0.modified = false := hf
            rw [heq, hm] at hf'
            simp at hf'
          · exact ⟨rfl, hok⟩
        · rcases hcond with hc | hc
          · exact absurd hc hne
          · exact absurd hc hnu
      · simp only [Option.map_some', Option.some.injEq] at h
        subst h
        rcases hw : env.writeRes with _ | _
        · refine ⟨fun hc => absurd rfl hc, fun hm hf => ⟨rfl, rfl⟩, fun _ herr _ _ => ?_⟩
          exact absurd herr (by simp)
        · refine ⟨fun hc => absurd rfl hc, fun hm hf => ?_, fun _ _ _ _ => rfl⟩
          exfalso
          have hf' : s.modified = false := hf
          rw [hm] at hf'
          simp at hf'

/-- Witness for C6: a failed write on a named modified buffer raises
the dialog and leaves content and modified flag unchanged. -/
theorem C6_modified_flag_witness :
    handleKeyEvent ⟨24, WriteRes.ioErr, [], 40, none, true⟩
        ⟨['f'], [['a']], 0, 0, 0, true, [], [], -1, 0, none⟩ Key.ctrlS =
      some ⟨['f'], [['a']], 0, 0, 0, true, [], [], -1, 0, some saveErrMsg⟩ := by
  have h : handleKeyEvent ⟨24, WriteRes.ioErr, [], 40, none, true⟩
      ⟨['f'], [['a']], 0, 0, 0, true, [], [], -1, 0, none⟩ Key.ctrlS =
      some (doWrite ⟨['f'], [['a']], 0, 0, 0, true, [], [], -1, 0, none⟩ WriteRes.ioErr) := by
    rfl
  have hc := (C6_modified_flag ⟨24, WriteRes.ioErr, [], 40, none, true⟩
    ⟨['f'], [['a']], 0, 0, 0, true, [], [], -1, 0, none⟩ Key.ctrlS
    (doWrite ⟨['f'], [['a']], 0, 0, 0, true, [], [], -1, 0, none⟩ WriteRes.ioErr)
    h).2.2 rfl rfl (by decide) (by decide)
  rw [h, hc]

/-! ## C10 -/

/-- C10: with an unnamed modified buffer, choosing Save in the exit
dialog opens the filename prompt and terminates the session
unconditionally afterwards; in particular when the user cancels the
prompt with Escape, no write is attempted, the state (still modified)
is unchanged, and the session still terminates — the document is
discarded. -/
theorem C10_save_then_exit_unconditional :
    (∀ (env : Env) (s s' : EState) (w cont : Bool),
      s.filePath = untitledName → env.onDisk = false →
      promptSaveBeforeExit env s ExitChoice.save = some (s', w, cont) → cont = false) ∧
    (∀ (env : Env) (s : EState),
      s.filePath = untitledName → env.onDisk = false → env.script = [PKey.escape] →
      promptSaveBeforeExit env s ExitChoice.save = some (s, false, false)) := by
  constructor
  · intro env s s' w cont h1 h2 h3
    unfold promptSaveBeforeExit at h3
    rw [if_pos ⟨h1, h2⟩] at h3
    rcases hp : promptForFilename env s with _ | p
    · rw [hp] at h3
      exact absurd h3 (by simp)
    · rw [hp] at h3
      simp only [Option.map_some', Option.some.injEq, Prod.mk.injEq] at h3
      exact h3.2.2.symm
  · intro env s h1 h2 h3
    unfold promptSaveBeforeExit
    rw [if_pos ⟨h1, h2⟩]
    unfold promptForFilename
    rw [h3, if_pos h1]
    rfl

/-- Witness for C10: a concrete unnamed modified buffer, Save chosen,
Escape pressed in the filename prompt. -/
theorem C10_save_then_exit_unconditional_witness :
    promptSaveBeforeExit ⟨24, WriteRes.ok, [PKey.escape], 40, none, false⟩
        ⟨untitledName, [['a']], 0, 0, 0, true, [], [], -1, 0, none⟩ ExitChoice.save =
      some (⟨untitledName, [['a']], 0, 0, 0, true, [], [], -1, 0, none⟩, false, false) :=
  C10_save_then_exit_unconditional.2
    ⟨24, WriteRes.ok, [PKey.escape], 40, none, false⟩
    ⟨untitledName, [['a']], 0, 0, 0, true, [], [], -1, 0, none⟩ rfl rfl rfl

end Pow
